import Mathlib

/-!
# Ryze: RSS-to-Discord relay (`main.go`)

A shallow embedding of the polling / filtering / delivery pipeline of `main.go`
and the properties of it that the specification states.

Conventions of the embedding
* Go `string` values are modelled by `String`.  The only string operations the
  program performs are a search for the one-byte character `\n`, a split at its
  first occurrence and a concatenation, which act alike on bytes and on characters.
* A `time.Time` is an instant counted in nanoseconds, an `Int`; a `time.Duration` is a
  signed 64-bit count of nanoseconds, an `Int` within `minDuration .. maxDuration`;
  `Time.Sub` saturates as the `time` package does.
* A Go run either returns, dies in `log.Fatal` (exit status 1, deferred calls
  skipped) or panics.  Calls to the chat backend are recorded in a trace of events.
* The external collaborators are parameters: the parsed feed (`gofeed`), the
  clock (`time.Now`), the tag stripper / entity decoder (`sanitizeHTML`) and the
  chat backend (`discordgo`).
-/

namespace Ryze

/-! ## Data model -/

/-- The item of a parsed feed (`gofeed.Item`), restricted to the fields read by `main.go`. -/
structure Item where
  Title : String
  Description : String
  Link : String
  PublishedParsed : Option Int
  deriving DecidableEq

/-- The parsed feed (`gofeed.Feed`), restricted to the fields read by `main.go`. -/
structure Feed where
  Title : String
  Items : List Item
  deriving DecidableEq

/-- The `feedItem` struct of `main.go`; `PublishedParsed` is a `*time.Time`, `none` is `nil`. -/
structure feedItem where
  Source : String
  Title : String
  Description : String
  Link : String
  PublishedParsed : Option Int
  deriving DecidableEq

/-- The `discordgo.MessageEmbedField` struct. -/
structure MessageEmbedField where
  Name : String
  Value : String
  Inline : Bool
  deriving DecidableEq

/-- The `discordgo.MessageEmbed` struct, restricted to the fields `main.go` sets
(every other field keeps its zero value). -/
structure MessageEmbed where
  Title : String
  Description : String
  Fields : List MessageEmbedField
  deriving DecidableEq

/-- Run-time panics of the Go runtime that `main.go` can raise. -/
inductive Panic where
  | nilDereference
  | indexOutOfRange (index : Nat) (length : Nat)
  deriving DecidableEq

/-- How a run of a Go function ends. -/
inductive Outcome where
  | returned
  | fatal
  | panicked (p : Panic)
  deriving DecidableEq

/-- Calls made to the chat backend, with their result (`true` is success). -/
inductive Event where
  | sessionOpen (ok : Bool)
  | send (message : MessageEmbed) (ok : Bool)
  | sessionClose
  deriving DecidableEq

/-- The chat backend as the program sees it.  `newOk` is the result of
`discordgo.New`, `openOk` that of `session.Open`, and `send history m` that of
`session.ChannelMessageSendEmbed` for message `m` when `history` lists the messages
already delivered over this session, oldest first. -/
structure Backend where
  newOk : Bool
  openOk : Bool
  send : List MessageEmbed → MessageEmbed → Bool

/-- What a run did: the backend calls in order, and how the run ended. -/
structure Run where
  trace : List Event
  outcome : Outcome
  deriving DecidableEq

/-! ## Sanitizer -/

/-- Go's `strings.ContainsAny(s, chars)`. -/
def containsAny (s chars : String) : Bool :=
  s.data.any (fun c => chars.data.contains c)

/-- Go's `strings.SplitN(s, sep, 2)` for a separator of one character: the text
before the first separator and, when there is a separator, the text after it.
The result always has a first element. -/
def splitN2 (s : String) (sep : Char) : String × List String :=
  let i := s.data.indexOf sep
  if i < s.data.length then
    (String.mk (s.data.take i), [String.mk (s.data.drop (i + 1))])
  else
    (s, [])

/-- `truncDescription` of `main.go`. -/
def truncDescription (s : String) : String :=
  if containsAny s "\n" then
    let trunc := (splitN2 s '\n').1
    trunc ++ " ...\n"
  else
    s

/-! ## Message formatting -/

/-- `formatRSSDiscordMessage` of `main.go`. -/
def formatRSSDiscordMessage (new : feedItem) : MessageEmbed :=
  let msgFieldTitle : MessageEmbedField := { Name := "Title", Value := new.Title, Inline := true }
  let msgFieldLink : MessageEmbedField := { Name := "Link", Value := new.Link, Inline := true }
  let msgFields := [msgFieldLink, msgFieldTitle]
  { Title := new.Source, Description := new.Description, Fields := msgFields }

/-! ## Feed reader -/

/-- The largest Go `int` (64-bit). -/
def maxInt : Int := 2 ^ 63 - 1

/-- The smallest Go `int` (64-bit). -/
def minInt : Int := -(2 ^ 63)

/-- Two's-complement wrap-around of Go `int` arithmetic. -/
def wrapInt (x : Int) : Int := (x + 2 ^ 63) % 2 ^ 64 - 2 ^ 63

/-- The `feedItem` that the body of the loop of `getLastNews` builds from one feed item.
`sanitizeHTML` (tag stripping and entity decoding, two library calls) is a parameter. -/
def newFeedItem (sanitizeHTML : String → String) (feed : Feed) (item : Item) : feedItem :=
  { Source := feed.Title
    Title := item.Title
    Description := truncDescription (sanitizeHTML item.Description)
    Link := item.Link
    PublishedParsed := item.PublishedParsed }

/-- The loop `for i := 0; i <= n-1; i++ { ... }` of `getLastNews`, entered at index `i`
with `k` index values still to visit.  `feed` is what `fp.ParseURL` returned (`none`
is the nil feed of a failed fetch, whose error the source discards).  The body reads
`feed.Title` (a nil dereference on a nil feed), then `feed.Items[i]` (an index
out of range panic when `i` is not below the length), then appends the new item. -/
def getLastNewsLoop (sanitizeHTML : String → String) (feed : Option Feed) :
    Nat → Nat → List feedItem → Except Panic (List feedItem)
  | 0, _, lastNews => .ok lastNews
  | k + 1, i, lastNews =>
    match feed with
    | none => .error .nilDereference
    | some f =>
      match f.Items.get? i with
      | none => .error (.indexOutOfRange i f.Items.length)
      | some item => getLastNewsLoop sanitizeHTML feed k (i + 1) (lastNews ++ [newFeedItem sanitizeHTML f item])

/-- `getLastNews` of `main.go`, after the feed has been fetched.  The loop bound is
`n-1` in Go `int` arithmetic; the loop visits `i = 0, 1, ..., n-1`, that is
`n-1+1` index values when `n-1` is not negative and none otherwise. -/
def getLastNews (sanitizeHTML : String → String) (feed : Option Feed) (n : Int) :
    Except Panic (List feedItem) :=
  getLastNewsLoop sanitizeHTML feed (wrapInt (n - 1) + 1).toNat 0 []

/-! ## Freshness filter -/

/-- The constant `time.Second`. -/
def second : Int := 1000000000

/-- The largest `time.Duration`. -/
def maxDuration : Int := 2 ^ 63 - 1

/-- The smallest `time.Duration`. -/
def minDuration : Int := -(2 ^ 63)

/-- `t.Sub(u)` of package `time`: the duration `t - u`, or the largest (smallest)
duration when `t - u` is above (below) what a `Duration` holds. -/
def timeSub (t u : Int) : Int :=
  if t - u < minDuration then minDuration
  else if maxDuration < t - u then maxDuration
  else t - u

/-- The loop of `cronRSSNews` over `lastNews`, with `newsToSend` as accumulated so far.
`*new.PublishedParsed` dereferences the pointer: a nil pointer panics. -/
def selectNews (now : Int) : List feedItem → List feedItem → Except Panic (List feedItem)
  | [], newsToSend => .ok newsToSend
  | new :: rest, newsToSend =>
    match new.PublishedParsed with
    | none => .error .nilDereference
    | some published =>
      if timeSub now published < second * 60 then
        selectNews now rest (newsToSend ++ [new])
      else
        selectNews now rest newsToSend

/-! ## Delivery pipeline -/

/-- The exchange `news[left], news[right] = news[right], news[left]`.  The loop of
`notifyDiscord` calls it with `0 ≤ left < right ≤ len(news)-1` only, so both
elements exist; the second case is there to make the function total. -/
def swap (news : List feedItem) (left right : Nat) : List feedItem :=
  match news.get? left, news.get? right with
  | some a, some b => (news.set left b).set right a
  | _, _ => news

/-- The loop `for left, right := 0, len(news)-1; left < right; left, right = left+1, right-1`
of `notifyDiscord`, entered with the given `left` and `right`. -/
def reverseLoop (news : List feedItem) (left right : Int) : List feedItem :=
  if left < right then
    reverseLoop (swap news left.toNat right.toNat) (left + 1) (right - 1)
  else
    news
termination_by (right - left).toNat
decreasing_by omega

/-- The in-place reversal at the start of `notifyDiscord`. -/
def reverseNews (news : List feedItem) : List feedItem :=
  reverseLoop news 0 ((news.length : Int) - 1)

/-- `newDiscordSession` of `main.go`: the backend calls it makes and the session it
returns; `false` is a `log.Fatal`. -/
def newDiscordSession (b : Backend) : List Event × Bool :=
  if b.newOk then
    if b.openOk then ([.sessionOpen true], true) else ([.sessionOpen false], false)
  else
    ([], false)

/-- The loop `for _, new := range news` of `notifyDiscord`: one synchronous send per
item, `log.Fatal` at the first send that returns an error.  `history` lists the
messages delivered before.  The result is the sends made and whether the loop ran
to its end. -/
def sendLoop (b : Backend) : List feedItem → List MessageEmbed → List Event × Bool
  | [], _ => ([], true)
  | new :: rest, history =>
    let message := formatRSSDiscordMessage new
    if b.send history message then
      let r := sendLoop b rest (history ++ [message])
      (.send message true :: r.1, r.2)
    else
      ([.send message false], false)

/-- `notifyDiscord` of `main.go`.  The deferred `session.Close()` runs when the
function returns; `log.Fatal` exits the process without running it. -/
def notifyDiscord (b : Backend) (news : List feedItem) : Run :=
  let news := reverseNews news
  let session := newDiscordSession b
  if session.2 then
    let r := sendLoop b news []
    if r.2 then
      { trace := session.1 ++ r.1 ++ [.sessionClose], outcome := .returned }
    else
      { trace := session.1 ++ r.1, outcome := .fatal }
  else
    { trace := session.1, outcome := .fatal }

/-! ## Scheduler and one-shot notifier -/

/-- `notifyLastNNews` of `main.go`, for the feed as fetched. -/
def notifyLastNNews (b : Backend) (sanitizeHTML : String → String) (feed : Option Feed)
    (n : Int) : Run :=
  match getLastNews sanitizeHTML feed n with
  | .error p => { trace := [], outcome := .panicked p }
  | .ok news => notifyDiscord b news

/-- `cronRSSNews` of `main.go`, for the feed as fetched and the instant `now` that
`time.Now()` returns. -/
def cronRSSNews (b : Backend) (sanitizeHTML : String → String) (feed : Option Feed)
    (now : Int) : Run :=
  match getLastNews sanitizeHTML feed 10 with
  | .error p => { trace := [], outcome := .panicked p }
  | .ok lastNews =>
    match selectNews now lastNews [] with
    | .error p => { trace := [], outcome := .panicked p }
    | .ok newsToSend =>
      if newsToSend.length > 0 then notifyDiscord b newsToSend
      else { trace := [], outcome := .returned }

/-! ## Observations on a run -/

/-- The messages of the sends a run attempted, in order. -/
def Run.sends (r : Run) : List MessageEmbed :=
  r.trace.filterMap fun e =>
    match e with
    | .send m _ => some m
    | _ => none

/-- The messages a run delivered (sends that succeeded), in order. -/
def Run.delivered (r : Run) : List MessageEmbed :=
  r.trace.filterMap fun e =>
    match e with
    | .send m true => some m
    | _ => none

/-- The number of sessions a run opened or tried to open. -/
def Run.sessions (r : Run) : Nat :=
  r.trace.countP fun e =>
    match e with
    | .sessionOpen _ => true
    | _ => false

/-! ## The specification's predicates -/

/-- The specification's freshness predicate: the publish time is present and
`now - publishedAt` (the exact difference) is below 60 seconds. -/
def fresh (now : Int) (item : feedItem) : Bool :=
  match item.PublishedParsed with
  | some published => decide (now - published < 60 * 1000000000)
  | none => false

/-- The item `a` was published strictly before the item `b` (both times present). -/
def publishedBefore (a b : feedItem) : Prop :=
  match a.PublishedParsed, b.PublishedParsed with
  | some x, some y => x < y
  | _, _ => False

instance (a b : feedItem) : Decidable (publishedBefore a b) := by
  unfold publishedBefore
  split <;> infer_instance

/-! ## Sample data for the scenarios -/

/-- A feed item of the source `"League"` with the given title and publish time. -/
def sampleNews (title : String) (published : Option Int) : feedItem :=
  { Source := "League", Title := title, Description := "d", Link := "l",
    PublishedParsed := published }

/-- A backend on which every call succeeds. -/
def okBackend : Backend :=
  { newOk := true, openOk := true, send := fun _ _ => true }

/-- A backend whose second send of a session fails and whose other calls succeed. -/
def secondSendFails : Backend :=
  { newOk := true, openOk := true, send := fun history _ => history.length != 1 }

/-- Ten fetched items, newest first; at the instant `1000` seconds the first two are
30 and 59 seconds old, the third exactly 60 seconds, the others older. -/
def tenNews : List feedItem :=
  [sampleNews "n0" (some 970000000000), sampleNews "n1" (some 941000000000),
   sampleNews "n2" (some 940000000000), sampleNews "n3" (some 900000000000),
   sampleNews "n4" (some 800000000000), sampleNews "n5" (some 700000000000),
   sampleNews "n6" (some 600000000000), sampleNews "n7" (some 500000000000),
   sampleNews "n8" (some 400000000000), sampleNews "n9" (some 0)]

/-- The parsed feed from which `getLastNews` builds `tenNews`. -/
def tenFeed : Feed :=
  { Title := "League"
    Items :=
      [{ Title := "n0", Description := "d", Link := "l", PublishedParsed := some 970000000000 },
       { Title := "n1", Description := "d", Link := "l", PublishedParsed := some 941000000000 },
       { Title := "n2", Description := "d", Link := "l", PublishedParsed := some 940000000000 },
       { Title := "n3", Description := "d", Link := "l", PublishedParsed := some 900000000000 },
       { Title := "n4", Description := "d", Link := "l", PublishedParsed := some 800000000000 },
       { Title := "n5", Description := "d", Link := "l", PublishedParsed := some 700000000000 },
       { Title := "n6", Description := "d", Link := "l", PublishedParsed := some 600000000000 },
       { Title := "n7", Description := "d", Link := "l", PublishedParsed := some 500000000000 },
       { Title := "n8", Description := "d", Link := "l", PublishedParsed := some 400000000000 },
       { Title := "n9", Description := "d", Link := "l", PublishedParsed := some 0 }] }

/-- A backend whose `session.Open` fails and on which every send would succeed. -/
def openFails : Backend :=
  { newOk := true, openOk := false, send := fun _ _ => true }

/-- Three items to deliver, newest first. -/
def threeNews : List feedItem :=
  [sampleNews "n0" (some 30), sampleNews "n1" (some 20), sampleNews "n2" (some 10)]

/-- A parsed feed of ten items of which the first was published at second `970` and
the others carry no publish date. -/
def undatedFeed : Feed :=
  { Title := "League"
    Items := { Title := "t", Description := "d", Link := "l",
               PublishedParsed := some 970000000000 } ::
      List.replicate 9 { Title := "t", Description := "d", Link := "l", PublishedParsed := none } }

/-- A parsed feed of ten items, all published at the instant `0`. -/
def oldFeed : Feed :=
  { Title := "League"
    Items := List.replicate 10
      { Title := "t", Description := "d", Link := "l", PublishedParsed := some 0 } }

/-! ## The sanitizer's truncation -/

theorem first_occurrence (c : Char) :
    ∀ l : List Char, c ∈ l → ∃ pre post : List Char, l = pre ++ c :: post ∧ c ∉ pre := by
  intro l
  induction l with
  | nil => intro h; cases h
  | cons a t ih =>
    intro h
    by_cases hac : a = c
    · exact ⟨[], t, by rw [hac]; rfl, by simp⟩
    · have ht : c ∈ t := by
        rcases List.mem_cons.1 h with h | h
        · exact absurd h.symm hac
        · exact h
      obtain ⟨pre, post, hl, hpre⟩ := ih ht
      refine ⟨a :: pre, post, by rw [hl]; rfl, ?_⟩
      intro hmem
      rcases List.mem_cons.1 hmem with h | h
      · exact hac h.symm
      · exact hpre h

theorem containsAny_newline (s : String) : containsAny s "\n" = true ↔ '\n' ∈ s.data := by
  unfold containsAny
  rw [List.any_eq_true]
  constructor
  · rintro ⟨c, hc, hmem⟩
    have h : c = '\n' := by simpa using hmem
    exact h ▸ hc
  · intro h
    exact ⟨'\n', h, by decide⟩

theorem truncDescription_of_newline (s : String) (pre post : List Char)
    (hs : s.data = pre ++ '\n' :: post) (hpre : '\n' ∉ pre) :
    truncDescription s = String.mk pre ++ " ...\n" := by
  have hmem : '\n' ∈ s.data := by rw [hs]; simp
  have hidx : s.data.indexOf '\n' = pre.length := by
    rw [hs, List.indexOf_append_of_not_mem hpre, List.indexOf_cons_self]; rfl
  have hlt : pre.length < s.data.length := by rw [hs]; simp
  have htake : s.data.take pre.length = pre := by rw [hs, List.take_left]
  unfold truncDescription splitN2
  rw [if_pos ((containsAny_newline s).2 hmem)]
  simp only [hidx, if_pos hlt, htake]

theorem truncDescription_of_no_newline (s : String) (hs : '\n' ∉ s.data) :
    truncDescription s = s := by
  unfold truncDescription
  rw [if_neg]
  rw [containsAny_newline]
  exact hs

/-- **C4.** If `s` contains a newline, `truncDescription s` is the text of `s` before
its first newline followed by the marker `" ...\n"` (space, three dots, newline); if
`s` contains no newline, `truncDescription s = s`.  The text before the first newline
is the `pre` of the decomposition `s = pre ++ "\n" ++ post` in which `pre` has no
newline; a string with a newline has such a decomposition. -/
theorem truncDescription_spec (s : String) :
    ('\n' ∈ s.data →
        ∃ pre post : List Char, s.data = pre ++ '\n' :: post ∧ '\n' ∉ pre ∧
          truncDescription s = String.mk pre ++ " ...\n") ∧
      (∀ pre post : List Char, s.data = pre ++ '\n' :: post → '\n' ∉ pre →
        truncDescription s = String.mk pre ++ " ...\n") ∧
      ('\n' ∉ s.data → truncDescription s = s) := by
  refine ⟨?_, truncDescription_of_newline s, truncDescription_of_no_newline s⟩
  intro h
  obtain ⟨pre, post, hs, hpre⟩ := first_occurrence '\n' s.data h
  exact ⟨pre, post, hs, hpre, truncDescription_of_newline s pre post hs hpre⟩

/-- The round trip of the specification: `"Line one\nLine two\nLine three"` is
truncated to `"Line one ...\n"`. -/
theorem truncDescription_spec_witness :
    truncDescription "Line one\nLine two\nLine three" = "Line one ...\n" :=
  (truncDescription_spec "Line one\nLine two\nLine three").2.1
    "Line one".data "Line two\nLine three".data (by decide) (by decide)

/-- A second application of `truncDescription` is not a no-op on `"a\nb"`: the first
yields `"a ...\n"`, the second `"a ... ...\n"`. -/
theorem truncDescription_not_idempotent :
    truncDescription "a\nb" = "a ...\n" ∧
      truncDescription (truncDescription "a\nb") = "a ... ...\n" ∧
      truncDescription (truncDescription "a\nb") ≠ truncDescription "a\nb" := by
  decide

/-- **C5 (amended).** On an input without a newline `truncDescription` is idempotent
(it returns its input).  On an input with a newline, one application yields the
first line followed by the marker `" ...\n"`, and a second application is not a
no-op: it yields the first line followed by `" ... ...\n"`. -/
theorem truncDescription_twice (s : String) :
    ('\n' ∉ s.data →
        truncDescription (truncDescription s) = truncDescription s ∧ truncDescription s = s) ∧
      ('\n' ∈ s.data → truncDescription (truncDescription s) ≠ truncDescription s) ∧
      (∀ pre post : List Char, s.data = pre ++ '\n' :: post → '\n' ∉ pre →
        truncDescription s = String.mk pre ++ " ...\n" ∧
        truncDescription (truncDescription s) = String.mk pre ++ " ... ...\n") := by
  have key : ∀ pre post : List Char, s.data = pre ++ '\n' :: post → '\n' ∉ pre →
      truncDescription s = String.mk pre ++ " ...\n" ∧
      truncDescription (truncDescription s) = String.mk pre ++ " ... ...\n" := by
    intro pre post hs hpre
    have h1 := truncDescription_of_newline s pre post hs hpre
    have hpre2 : '\n' ∉ pre ++ " ...".data := by
      intro h
      rcases List.mem_append.1 h with h | h
      · exact hpre h
      · exact absurd h (by decide)
    have h2 : truncDescription (String.mk pre ++ " ...\n") = String.mk pre ++ " ... ...\n" := by
      rw [truncDescription_of_newline (String.mk pre ++ " ...\n") (pre ++ " ...".data) [] _ hpre2]
      · apply String.ext
        simp [String.data_append]
      · simp [String.data_append]
    exact ⟨h1, by rw [h1, h2]⟩
  refine ⟨?_, ?_, key⟩
  · intro h
    rw [truncDescription_of_no_newline s h]
    exact ⟨truncDescription_of_no_newline s h, rfl⟩
  · intro h
    obtain ⟨pre, post, hs, hpre⟩ := first_occurrence '\n' s.data h
    obtain ⟨h1, h2⟩ := key pre post hs hpre
    rw [h2, h1]
    intro heq
    have hd := congrArg String.data heq
    simp [String.data_append] at hd

/-- On `"Line one\nLine two"` the second application yields `"Line one ... ...\n"`. -/
theorem truncDescription_twice_witness :
    truncDescription (truncDescription "Line one\nLine two") = "Line one ... ...\n" :=
  ((truncDescription_twice "Line one\nLine two").2.2
    "Line one".data "Line two".data (by decide) (by decide)).2

/-! ## Message formatting -/

/-- **C10.** The message built from a feed item has the item's source as its title,
the item's description as its description, and exactly two fields, in this order:
an inline field named `"Link"` holding the item's link, then an inline field named
`"Title"` holding the item's title. -/
theorem formatRSSDiscordMessage_spec (new : feedItem) :
    (formatRSSDiscordMessage new).Title = new.Source ∧
      (formatRSSDiscordMessage new).Description = new.Description ∧
      (formatRSSDiscordMessage new).Fields.length = 2 ∧
      (formatRSSDiscordMessage new).Fields =
        [{ Name := "Link", Value := new.Link, Inline := true },
         { Name := "Title", Value := new.Title, Inline := true }] :=
  ⟨rfl, rfl, rfl, rfl⟩

/-! ## Feed reader -/

theorem wrapInt_of_int (x : Int) (hlo : minInt ≤ x) (hhi : x ≤ maxInt) : wrapInt x = x := by
  unfold wrapInt
  unfold minInt at hlo
  unfold maxInt at hhi
  omega

theorem getLastNewsLoop_ok (sanitizeHTML : String → String) (f : Feed) :
    ∀ (k i : Nat) (lastNews : List feedItem), i + k ≤ f.Items.length →
      getLastNewsLoop sanitizeHTML (some f) k i lastNews =
        .ok (lastNews ++ ((f.Items.drop i).take k).map (newFeedItem sanitizeHTML f)) := by
  intro k
  induction k with
  | zero => intro i lastNews _; simp [getLastNewsLoop]
  | succ k ih =>
    intro i lastNews h
    have hi : i < f.Items.length := by omega
    have hget : f.Items.get? i = some f.Items[i] := by
      rw [List.get?_eq_getElem?, List.getElem?_eq_getElem hi]
    unfold getLastNewsLoop
    simp only [hget]
    rw [ih (i + 1) _ (by omega), List.drop_eq_getElem_cons hi, List.take_succ_cons,
      List.map_cons, List.append_assoc, List.singleton_append]

theorem getLastNewsLoop_short (sanitizeHTML : String → String) (f : Feed) :
    ∀ (k i : Nat) (lastNews : List feedItem), i ≤ f.Items.length → f.Items.length < i + k →
      getLastNewsLoop sanitizeHTML (some f) k i lastNews =
        .error (.indexOutOfRange f.Items.length f.Items.length) := by
  intro k
  induction k with
  | zero => intro i lastNews h1 h2; omega
  | succ k ih =>
    intro i lastNews h1 h2
    unfold getLastNewsLoop
    by_cases hi : i < f.Items.length
    · have hget : f.Items.get? i = some f.Items[i] := by
        rw [List.get?_eq_getElem?, List.getElem?_eq_getElem hi]
      simp only [hget]
      exact ih (i + 1) _ (by omega) (by omega)
    · have hieq : i = f.Items.length := by omega
      have hget : f.Items.get? i = none := by
        rw [List.get?_eq_getElem?, List.getElem?_eq_none (by omega)]
      simp only [hget]
      rw [hieq]

theorem getLastNews_eq_take (sanitizeHTML : String → String) (feed : Feed) (n : Int)
    (h0 : 0 ≤ n) (hint : n ≤ maxInt) (hlen : n ≤ (feed.Items.length : Int)) :
    getLastNews sanitizeHTML (some feed) n =
      .ok ((feed.Items.take n.toNat).map (newFeedItem sanitizeHTML feed)) := by
  unfold getLastNews
  have hmin : minInt ≤ n - 1 := by unfold minInt; omega
  rw [wrapInt_of_int (n - 1) hmin (by omega)]
  have hk : (n - 1 + 1).toNat = n.toNat := by congr 1; omega
  rw [hk, getLastNewsLoop_ok sanitizeHTML feed n.toNat 0 [] (by omega)]
  simp

/-- **C8.** For a parsed feed with at least `n` items (`n ≥ 0`, a Go `int`),
`getLastNews` returns exactly `n` items, and for every `i < n` the `i`-th returned
item is built from the feed's `i`-th item: `Source` is the feed title, `Title` and
`Link` are copied, `Description` is `truncDescription (sanitizeHTML raw)` and
`PublishedParsed` is that item's parsed timestamp (possibly absent). -/
theorem getLastNews_spec (sanitizeHTML : String → String) (feed : Feed) (n : Int)
    (h0 : 0 ≤ n) (hint : n ≤ maxInt) (hlen : n ≤ (feed.Items.length : Int)) :
    ∃ news : List feedItem,
      getLastNews sanitizeHTML (some feed) n = .ok news ∧
      (news.length : Int) = n ∧
      ∀ i : Nat, (i : Int) < n →
        ∃ item : Item, feed.Items[i]? = some item ∧
          news[i]? = some
            { Source := feed.Title
              Title := item.Title
              Description := truncDescription (sanitizeHTML item.Description)
              Link := item.Link
              PublishedParsed := item.PublishedParsed } := by
  refine ⟨_, getLastNews_eq_take sanitizeHTML feed n h0 hint hlen, ?_, ?_⟩
  · rw [List.length_map, List.length_take]
    omega
  · intro i hi
    have hil : i < feed.Items.length := by omega
    refine ⟨feed.Items[i], List.getElem?_eq_getElem hil, ?_⟩
    rw [List.getElem?_map, List.getElem?_take_of_lt (by omega), List.getElem?_eq_getElem hil]
    rfl

/-- The first two items of a feed of three, one of them without a publish time. -/
theorem getLastNews_spec_witness :
    ∃ news : List feedItem,
      getLastNews id
          (some { Title := "League", Items :=
            [{ Title := "t0", Description := "d0\nmore", Link := "l0", PublishedParsed := some 7 },
             { Title := "t1", Description := "d1", Link := "l1", PublishedParsed := none },
             { Title := "t2", Description := "d2", Link := "l2", PublishedParsed := some 5 }] })
          2 = .ok news ∧
      (news.length : Int) = 2 ∧
      ∀ i : Nat, (i : Int) < 2 →
        ∃ item : Item,
          ([{ Title := "t0", Description := "d0\nmore", Link := "l0", PublishedParsed := some 7 },
            { Title := "t1", Description := "d1", Link := "l1", PublishedParsed := none },
            { Title := "t2", Description := "d2", Link := "l2", PublishedParsed := some 5 }] :
              List Item)[i]? = some item ∧
          news[i]? = some
            { Source := "League"
              Title := item.Title
              Description := truncDescription (id item.Description)
              Link := item.Link
              PublishedParsed := item.PublishedParsed } :=
  getLastNews_spec id
    { Title := "League", Items :=
      [{ Title := "t0", Description := "d0\nmore", Link := "l0", PublishedParsed := some 7 },
       { Title := "t1", Description := "d1", Link := "l1", PublishedParsed := none },
       { Title := "t2", Description := "d2", Link := "l2", PublishedParsed := some 5 }] }
    2 (by decide) (by decide) (by decide)

/-- **C7 (what the code does).** `getLastNews` never compares `n` with the number of
items.  For a feed with fewer than `n` items (`n > 0`, a Go `int`) the loop runs into
`feed.Items[len(feed.Items)]` and the Go runtime panics with index out of range: no
list is returned and no insufficient-items error is reported.  The one-shot path
`notifyLastNNews` dies of that panic before any call to the backend: no session is
opened and no send is issued. -/
theorem getLastNews_insufficient (b : Backend) (sanitizeHTML : String → String) (feed : Feed)
    (n : Int) (hpos : 0 < n) (hint : n ≤ maxInt) (hshort : (feed.Items.length : Int) < n) :
    getLastNews sanitizeHTML (some feed) n =
        .error (.indexOutOfRange feed.Items.length feed.Items.length) ∧
      (notifyLastNNews b sanitizeHTML (some feed) n).outcome =
        .panicked (.indexOutOfRange feed.Items.length feed.Items.length) ∧
      (notifyLastNNews b sanitizeHTML (some feed) n).trace = [] ∧
      (notifyLastNNews b sanitizeHTML (some feed) n).sends = [] ∧
      (notifyLastNNews b sanitizeHTML (some feed) n).sessions = 0 := by
  have hget : getLastNews sanitizeHTML (some feed) n =
      .error (.indexOutOfRange feed.Items.length feed.Items.length) := by
    unfold getLastNews
    have hmin : minInt ≤ n - 1 := by unfold minInt; omega
    rw [wrapInt_of_int (n - 1) hmin (by omega)]
    exact getLastNewsLoop_short sanitizeHTML feed _ 0 [] (by omega) (by omega)
  refine ⟨hget, ?_, ?_, ?_, ?_⟩ <;> simp [notifyLastNNews, hget, Run.sends, Run.sessions]

/-- The scenario `n = 5` against a feed of three items: no list, no send. -/
theorem getLastNews_insufficient_witness :
    getLastNews id
        (some { Title := "League", Items :=
          [{ Title := "t0", Description := "d0", Link := "l0", PublishedParsed := some 7 },
           { Title := "t1", Description := "d1", Link := "l1", PublishedParsed := some 6 },
           { Title := "t2", Description := "d2", Link := "l2", PublishedParsed := some 5 }] })
        5 = .error (.indexOutOfRange 3 3) ∧
      (notifyLastNNews { newOk := true, openOk := true, send := fun _ _ => true } id
        (some { Title := "League", Items :=
          [{ Title := "t0", Description := "d0", Link := "l0", PublishedParsed := some 7 },
           { Title := "t1", Description := "d1", Link := "l1", PublishedParsed := some 6 },
           { Title := "t2", Description := "d2", Link := "l2", PublishedParsed := some 5 }] })
        5).sends = [] := by
  have h := getLastNews_insufficient { newOk := true, openOk := true, send := fun _ _ => true } id
    { Title := "League", Items :=
      [{ Title := "t0", Description := "d0", Link := "l0", PublishedParsed := some 7 },
       { Title := "t1", Description := "d1", Link := "l1", PublishedParsed := some 6 },
       { Title := "t2", Description := "d2", Link := "l2", PublishedParsed := some 5 }] }
    5 (by decide) (by decide) (by decide)
  exact ⟨h.1, h.2.2.2.1⟩

/-! ## Freshness filter -/

theorem timeSub_lt_window (now published : Int) :
    timeSub now published < second * 60 ↔ now - published < 60 * 1000000000 := by
  unfold timeSub minDuration maxDuration second
  split_ifs <;> constructor <;> intro _ <;> omega

theorem selectNews_eq_filter (now : Int) :
    ∀ (items newsToSend : List feedItem), (∀ item ∈ items, item.PublishedParsed ≠ none) →
      selectNews now items newsToSend = .ok (newsToSend ++ items.filter (fresh now)) := by
  intro items
  induction items with
  | nil => intro newsToSend _; simp [selectNews]
  | cons new rest ih =>
    intro newsToSend hall
    have hrest : ∀ item ∈ rest, item.PublishedParsed ≠ none :=
      fun item h => hall item (List.mem_cons_of_mem _ h)
    have hnew := hall new (List.mem_cons_self _ _)
    unfold selectNews
    cases hp : new.PublishedParsed with
    | none => exact absurd hp hnew
    | some published =>
      simp only
      by_cases hw : timeSub now published < second * 60
      · have hf : fresh now new = true := by
          unfold fresh
          rw [hp]
          exact decide_eq_true ((timeSub_lt_window now published).1 hw)
        rw [if_pos hw, ih _ hrest, List.filter_cons_of_pos hf, List.append_assoc,
          List.singleton_append]
      · have hf : ¬ fresh now new = true := by
          unfold fresh
          rw [hp]
          intro h
          exact hw ((timeSub_lt_window now published).2 (of_decide_eq_true h))
        rw [if_neg hw, ih _ hrest, List.filter_cons_of_neg hf]

theorem selectNews_absent (now : Int) :
    ∀ (items newsToSend : List feedItem), (∃ item ∈ items, item.PublishedParsed = none) →
      selectNews now items newsToSend = .error .nilDereference := by
  intro items
  induction items with
  | nil => intro newsToSend h; obtain ⟨_, hmem, _⟩ := h; cases hmem
  | cons new rest ih =>
    intro newsToSend h
    unfold selectNews
    cases hp : new.PublishedParsed with
    | none => rfl
    | some published =>
      have hrest : ∃ item ∈ rest, item.PublishedParsed = none := by
        obtain ⟨item, hmem, hnone⟩ := h
        rcases List.mem_cons.1 hmem with heq | hmem
        · rw [heq, hp] at hnone; cases hnone
        · exact ⟨item, hmem, hnone⟩
      simp only
      split_ifs
      · exact ih _ hrest
      · exact ih _ hrest

/-- **C6 (what the code does).** When some fetched item has no publish timestamp,
the freshness loop of `cronRSSNews` does not drop it: the loop dereferences the nil
pointer, whatever the other items are, and the cycle ends in a panic without any
call to the backend. -/
theorem selectNews_absent_timestamp (b : Backend) (sanitizeHTML : String → String)
    (feed : Option Feed) (now : Int) (lastNews : List feedItem)
    (hfetch : getLastNews sanitizeHTML feed 10 = .ok lastNews)
    (habsent : ∃ item ∈ lastNews, item.PublishedParsed = none) :
    selectNews now lastNews [] = .error .nilDereference ∧
      cronRSSNews b sanitizeHTML feed now =
        { trace := [], outcome := .panicked .nilDereference } := by
  have hsel := selectNews_absent now lastNews [] habsent
  exact ⟨hsel, by simp [cronRSSNews, hfetch, hsel]⟩

/-- A feed whose first item is 30 seconds old and whose other items carry no date:
the cycle panics instead of delivering the first item. -/
theorem selectNews_absent_timestamp_witness :
    cronRSSNews okBackend id (some undatedFeed) 1000000000000 =
      { trace := [], outcome := .panicked .nilDereference } :=
  (selectNews_absent_timestamp okBackend id (some undatedFeed) 1000000000000
    (undatedFeed.Items.map (newFeedItem id undatedFeed))
    (getLastNews_eq_take id undatedFeed 10 (by decide) (by decide) (by decide))
    ⟨newFeedItem id undatedFeed
        { Title := "t", Description := "d", Link := "l", PublishedParsed := none },
      by decide, rfl⟩).2

/-! ## Delivery pipeline: the in-place reversal -/

theorem swap_ends (pre mid post : List feedItem) (a b : feedItem) :
    swap (pre ++ a :: (mid ++ b :: post)) pre.length (pre.length + mid.length + 1) =
      pre ++ b :: (mid ++ a :: post) := by
  have h1 : (pre ++ a :: (mid ++ b :: post)).get? pre.length = some a := by
    rw [List.get?_eq_getElem?, List.getElem?_append_right (le_refl _)]
    simp
  have h2 : (pre ++ a :: (mid ++ b :: post)).get? (pre.length + mid.length + 1) = some b := by
    rw [List.get?_eq_getElem?, List.getElem?_append_right (by omega)]
    have : pre.length + mid.length + 1 - pre.length = mid.length + 1 := by omega
    rw [this, List.getElem?_cons_succ, List.getElem?_append_right (le_refl _)]
    simp
  unfold swap
  rw [h1, h2]
  simp only
  rw [List.set_append, if_neg (by omega), Nat.sub_self, List.set_cons_zero,
    List.set_append, if_neg (by omega)]
  have : pre.length + mid.length + 1 - pre.length = mid.length + 1 := by omega
  rw [this, List.set_cons_succ, List.set_append, if_neg (by omega), Nat.sub_self,
    List.set_cons_zero]

theorem reverseLoop_segment :
    ∀ (m : Nat) (pre mid post : List feedItem), mid.length = m →
      reverseLoop (pre ++ (mid ++ post)) (pre.length : Int) ((pre.length : Int) + mid.length - 1) =
        pre ++ (mid.reverse ++ post) := by
  intro m
  induction m using Nat.strong_induction_on with
  | _ m ih =>
    intro pre mid post hm
    cases mid with
    | nil =>
      rw [reverseLoop, if_neg (by simp)]
      simp
    | cons a tail =>
      rcases List.eq_nil_or_concat tail with htail | ⟨mid', b, htail⟩
      · subst htail
        rw [reverseLoop, if_neg (by simp)]
        simp
      · subst htail
        simp only [List.concat_eq_append] at hm ⊢
        have hlen : (a :: (mid' ++ [b])).length = mid'.length + 2 := by simp
        rw [reverseLoop, if_pos (by rw [hlen]; push_cast; omega)]
        have hl : ((pre.length : Int)).toNat = pre.length := by simp
        have hr : ((pre.length : Int) + ((a :: (mid' ++ [b])).length : Nat) - 1).toNat =
            pre.length + mid'.length + 1 := by
          rw [hlen]; push_cast; omega
        have hsw : swap (pre ++ (a :: (mid' ++ [b]) ++ post)) pre.length
            (pre.length + mid'.length + 1) = (pre ++ [b]) ++ (mid' ++ a :: post) := by
          have h := swap_ends pre mid' post a b
          simpa using h
        have hrec := ih mid'.length (by rw [← hm, hlen]; omega) (pre ++ [b]) mid' (a :: post) rfl
        rw [hl, hr, hsw]
        have e1 : (pre.length : Int) + 1 = ((pre ++ [b]).length : Int) := by simp
        have e2 : (pre.length : Int) + ((a :: (mid' ++ [b])).length : Nat) - 1 - 1 =
            ((pre ++ [b]).length : Int) + (mid'.length : Int) - 1 := by
          rw [hlen]; simp; omega
        rw [e1, e2, hrec]
        simp

theorem reverseNews_eq_reverse (news : List feedItem) : reverseNews news = news.reverse := by
  have h := reverseLoop_segment news.length [] news [] rfl
  simpa [reverseNews] using h

/-! ## Delivery pipeline: the sends -/

theorem sendLoop_all_ok (b : Backend) :
    ∀ (items : List feedItem) (history : List MessageEmbed),
      (∀ i m, (items.map formatRSSDiscordMessage)[i]? = some m →
        b.send (history ++ (items.map formatRSSDiscordMessage).take i) m = true) →
      sendLoop b items history =
        ((items.map formatRSSDiscordMessage).map (fun m => Event.send m true), true) := by
  intro items
  induction items with
  | nil => intro history _; rfl
  | cons new rest ih =>
    intro history h
    have h0 : b.send history (formatRSSDiscordMessage new) = true := by
      have := h 0 (formatRSSDiscordMessage new) (by simp)
      simpa using this
    have hrest : ∀ i m, (rest.map formatRSSDiscordMessage)[i]? = some m →
        b.send ((history ++ [formatRSSDiscordMessage new]) ++
          (rest.map formatRSSDiscordMessage).take i) m = true := by
      intro i m hm
      have := h (i + 1) m (by simpa using hm)
      simpa using this
    unfold sendLoop
    simp only [h0, if_true, ih _ hrest, List.map_cons]

theorem sendLoop_first_failure (b : Backend) :
    ∀ (items : List feedItem) (history : List MessageEmbed) (k : Nat) (m : MessageEmbed),
      (∀ i mi, i < k → (items.map formatRSSDiscordMessage)[i]? = some mi →
        b.send (history ++ (items.map formatRSSDiscordMessage).take i) mi = true) →
      (items.map formatRSSDiscordMessage)[k]? = some m →
      b.send (history ++ (items.map formatRSSDiscordMessage).take k) m = false →
      sendLoop b items history =
        (((items.map formatRSSDiscordMessage).take k).map (fun m => Event.send m true) ++
          [Event.send m false], false) := by
  intro items
  induction items with
  | nil => intro history k m _ hm _; simp at hm
  | cons new rest ih =>
    intro history k m hok hm hfail
    cases k with
    | zero =>
      have hmeq : formatRSSDiscordMessage new = m := by simpa using hm
      have h0 : b.send history (formatRSSDiscordMessage new) = false := by
        rw [hmeq]; simpa using hfail
      unfold sendLoop
      simp only [h0, hmeq]
      simp [← hmeq, h0]
    | succ k =>
      have h0 : b.send history (formatRSSDiscordMessage new) = true := by
        have := hok 0 (formatRSSDiscordMessage new) (by omega) (by simp)
        simpa using this
      have hrest : ∀ i mi, i < k → (rest.map formatRSSDiscordMessage)[i]? = some mi →
          b.send ((history ++ [formatRSSDiscordMessage new]) ++
            (rest.map formatRSSDiscordMessage).take i) mi = true := by
        intro i mi hi hmi
        have := hok (i + 1) mi (by omega) (by simpa using hmi)
        simpa using this
      have hm' : (rest.map formatRSSDiscordMessage)[k]? = some m := by simpa using hm
      have hfail' : b.send ((history ++ [formatRSSDiscordMessage new]) ++
          (rest.map formatRSSDiscordMessage).take k) m = false := by simpa using hfail
      unfold sendLoop
      simp only [h0, if_true, ih _ k m hrest hm' hfail', List.map_cons, List.take_succ_cons,
        List.cons_append]

theorem sends_of_successes (ms : List MessageEmbed) :
    (ms.map (fun m => Event.send m true)).filterMap
      (fun e => match e with
        | .send m _ => some m
        | _ => none) = ms := by
  induction ms with
  | nil => rfl
  | cons m ms ih => simp [List.filterMap_cons, ih]

theorem delivered_of_successes (ms : List MessageEmbed) :
    (ms.map (fun m => Event.send m true)).filterMap
      (fun e => match e with
        | .send m true => some m
        | _ => none) = ms := by
  induction ms with
  | nil => rfl
  | cons m ms ih => simp [List.filterMap_cons, ih]

theorem notifyDiscord_trace_ok (b : Backend) (news : List feedItem)
    (hnew : b.newOk = true) (hopen : b.openOk = true)
    (hsend : ∀ i m, (news.reverse.map formatRSSDiscordMessage)[i]? = some m →
      b.send ((news.reverse.map formatRSSDiscordMessage).take i) m = true) :
    notifyDiscord b news =
      { trace := Event.sessionOpen true ::
          ((news.reverse.map formatRSSDiscordMessage).map (fun m => Event.send m true) ++
            [Event.sessionClose])
        outcome := .returned } := by
  have hloop := sendLoop_all_ok b news.reverse [] (by simpa using hsend)
  simp [notifyDiscord, newDiscordSession, hnew, hopen, reverseNews_eq_reverse, hloop]

theorem notifyDiscord_trace_failure (b : Backend) (news : List feedItem) (k : Nat)
    (m : MessageEmbed) (hnew : b.newOk = true) (hopen : b.openOk = true)
    (hok : ∀ i mi, i < k → (news.reverse.map formatRSSDiscordMessage)[i]? = some mi →
      b.send ((news.reverse.map formatRSSDiscordMessage).take i) mi = true)
    (hm : (news.reverse.map formatRSSDiscordMessage)[k]? = some m)
    (hfail : b.send ((news.reverse.map formatRSSDiscordMessage).take k) m = false) :
    notifyDiscord b news =
      { trace := Event.sessionOpen true ::
          (((news.reverse.map formatRSSDiscordMessage).take k).map
            (fun m => Event.send m true) ++ [Event.send m false])
        outcome := .fatal } := by
  have hloop := sendLoop_first_failure b news.reverse [] k m (by simpa using hok) hm
    (by simpa using hfail)
  simp [notifyDiscord, newDiscordSession, hnew, hopen, reverseNews_eq_reverse, hloop]

/-- With `session.Open` failing, a batch of three items is not sent at all, although
the backend would accept every send: `notifyDiscord` dies in `log.Fatal` after the
failed open, having issued no send. -/
theorem notifyDiscord_open_fails_no_send :
    (∀ history m, openFails.send history m = true) ∧
      threeNews.length = 3 ∧
      (notifyDiscord openFails threeNews).trace = [Event.sessionOpen false] ∧
      (notifyDiscord openFails threeNews).sends = [] ∧
      (notifyDiscord openFails threeNews).sends.length ≠ threeNews.length ∧
      (notifyDiscord openFails threeNews).outcome = .fatal := by
  have h : notifyDiscord openFails threeNews =
      { trace := [Event.sessionOpen false], outcome := .fatal } := by
    simp [notifyDiscord, newDiscordSession, openFails]
  rw [h]
  exact ⟨fun _ _ => rfl, rfl, rfl, rfl, by decide, rfl⟩

/-- **C2 (amended).** For a batch of `K` items, when the chat session is established
(`discordgo.New` and `session.Open` succeed) and every send succeeds, `notifyDiscord`
returns after exactly `K` sends, all delivered, and the `i`-th send carries the
message formatted from input item `K-1-i`: the sends are the formatted items in
reverse input order.  Hence for an input listed newest first (strictly decreasing
publish time) the sends are made in strictly increasing publish-time order. -/
theorem notifyDiscord_all_sent (b : Backend) (news : List feedItem)
    (hnew : b.newOk = true) (hopen : b.openOk = true)
    (hsend : ∀ i m, (news.reverse.map formatRSSDiscordMessage)[i]? = some m →
      b.send ((news.reverse.map formatRSSDiscordMessage).take i) m = true) :
    (notifyDiscord b news).outcome = .returned ∧
      (notifyDiscord b news).sends = news.reverse.map formatRSSDiscordMessage ∧
      (notifyDiscord b news).delivered = news.reverse.map formatRSSDiscordMessage ∧
      (notifyDiscord b news).sends.length = news.length ∧
      (∀ i, i < news.length →
        (notifyDiscord b news).sends[i]? =
          (news[news.length - 1 - i]?).map formatRSSDiscordMessage) ∧
      (news.Pairwise (fun newer older => publishedBefore older newer) →
        ∃ order : List feedItem, order = news.reverse ∧
          (notifyDiscord b news).sends = order.map formatRSSDiscordMessage ∧
          order.Pairwise publishedBefore) := by
  have htrace := notifyDiscord_trace_ok b news hnew hopen hsend
  have hsends : (notifyDiscord b news).sends = news.reverse.map formatRSSDiscordMessage := by
    rw [htrace]
    simp only [Run.sends, List.filterMap_cons, List.filterMap_append, sends_of_successes]
    simp
  have hdelivered :
      (notifyDiscord b news).delivered = news.reverse.map formatRSSDiscordMessage := by
    rw [htrace]
    simp only [Run.delivered, List.filterMap_cons, List.filterMap_append,
      delivered_of_successes]
    simp
  refine ⟨by rw [htrace], hsends, hdelivered, ?_, ?_, ?_⟩
  · rw [hsends]; simp
  · intro i hi
    rw [hsends, List.getElem?_map, List.getElem?_reverse hi]
  · intro hdec
    exact ⟨news.reverse, rfl, hsends, List.pairwise_reverse.2 hdec⟩

/-- Three items listed newest first, every call succeeding: three sends, oldest first. -/
theorem notifyDiscord_all_sent_witness :
    (notifyDiscord okBackend threeNews).outcome = .returned ∧
      (notifyDiscord okBackend threeNews).sends =
        [formatRSSDiscordMessage (sampleNews "n2" (some 10)),
         formatRSSDiscordMessage (sampleNews "n1" (some 20)),
         formatRSSDiscordMessage (sampleNews "n0" (some 30))] ∧
      ∃ order : List feedItem, order = threeNews.reverse ∧
        (notifyDiscord okBackend threeNews).sends = order.map formatRSSDiscordMessage ∧
        order.Pairwise publishedBefore := by
  have h := notifyDiscord_all_sent okBackend threeNews rfl rfl (fun _ _ _ => rfl)
  exact ⟨h.1, h.2.1, h.2.2.2.2.2 (by decide)⟩

/-- **C3.** For a batch of `K` items over an established session, when the `j`-th send
in delivery (reversed) order is the first to fail (`1 ≤ j ≤ K`), `notifyDiscord`
attempts exactly `j` sends (the first `j` messages of the delivery order, no later
item), delivers exactly the first `j-1` of them, and the run ends in `log.Fatal`. -/
theorem notifyDiscord_first_failure (b : Backend) (news : List feedItem) (j : Nat)
    (hnew : b.newOk = true) (hopen : b.openOk = true)
    (hj : 1 ≤ j) (hjK : j ≤ news.length)
    (hok : ∀ i m, i < j - 1 → (news.reverse.map formatRSSDiscordMessage)[i]? = some m →
      b.send ((news.reverse.map formatRSSDiscordMessage).take i) m = true)
    (hfail : ∀ m, (news.reverse.map formatRSSDiscordMessage)[j - 1]? = some m →
      b.send ((news.reverse.map formatRSSDiscordMessage).take (j - 1)) m = false) :
    (notifyDiscord b news).sends = (news.reverse.map formatRSSDiscordMessage).take j ∧
      (notifyDiscord b news).sends.length = j ∧
      (notifyDiscord b news).delivered =
        (news.reverse.map formatRSSDiscordMessage).take (j - 1) ∧
      (notifyDiscord b news).delivered.length = j - 1 ∧
      (notifyDiscord b news).outcome = .fatal := by
  have hlen : (news.reverse.map formatRSSDiscordMessage).length = news.length := by simp
  have hlt : j - 1 < (news.reverse.map formatRSSDiscordMessage).length := by omega
  have hm := List.getElem?_eq_getElem hlt
  have htrace := notifyDiscord_trace_failure b news (j - 1) _ hnew hopen hok hm (hfail _ hm)
  have hj1 : j = (j - 1) + 1 := by omega
  have hsends :
      (notifyDiscord b news).sends = (news.reverse.map formatRSSDiscordMessage).take j := by
    rw [htrace]
    simp only [Run.sends, List.filterMap_cons, List.filterMap_append, sends_of_successes]
    nth_rewrite 3 [hj1]
    rw [List.take_succ, hm]
    rfl
  have hdelivered : (notifyDiscord b news).delivered =
      (news.reverse.map formatRSSDiscordMessage).take (j - 1) := by
    rw [htrace]
    simp only [Run.delivered, List.filterMap_cons, List.filterMap_append,
      delivered_of_successes]
    simp
  refine ⟨hsends, ?_, hdelivered, ?_, by rw [htrace]⟩
  · rw [hsends, List.length_take, hlen]; omega
  · rw [hdelivered, List.length_take, hlen]; omega

/-- The scenario of a failure on the second of three queued messages: two sends are
attempted, exactly one message is delivered, and the run ends in failure. -/
theorem notifyDiscord_first_failure_witness :
    (notifyDiscord secondSendFails threeNews).sends.length = 2 ∧
      (notifyDiscord secondSendFails threeNews).delivered =
        [formatRSSDiscordMessage (sampleNews "n2" (some 10))] ∧
      (notifyDiscord secondSendFails threeNews).delivered.length = 1 ∧
      (notifyDiscord secondSendFails threeNews).outcome = .fatal := by
  have h := notifyDiscord_first_failure secondSendFails threeNews 2 rfl rfl (by decide)
    (by decide)
    (fun i m hi hm => by
      have hi0 : i = 0 := by omega
      subst hi0
      rfl)
    (fun m hm => rfl)
  exact ⟨h.2.1, h.2.2.1, h.2.2.2.1, h.2.2.2.2⟩

/-- An empty batch handed to `notifyDiscord` is not a no-op: on a backend whose
calls succeed a session is opened and closed, though no message is sent. -/
theorem notifyDiscord_empty_opens_session :
    (notifyDiscord okBackend []).trace = [Event.sessionOpen true, Event.sessionClose] ∧
      (notifyDiscord okBackend []).sessions = 1 ∧
      (notifyDiscord okBackend []).sends = [] := by
  have h : notifyDiscord okBackend [] =
      { trace := [Event.sessionOpen true, Event.sessionClose], outcome := .returned } := by
    simp [notifyDiscord, reverseNews_eq_reverse, newDiscordSession, okBackend, sendLoop]
  rw [h]
  decide

/-- **C9 (amended).** `notifyDiscord` called with an empty item list sends no message,
but it still opens a chat session whenever the session object can be created.  The
no-op is in the scheduled cycle: when `cronRSSNews` selects no item it does not call
`notifyDiscord`, so no backend call is made at all (no session, no send). -/
theorem empty_batch (b : Backend) (sanitizeHTML : String → String) (feed : Option Feed)
    (now : Int) (lastNews : List feedItem)
    (hfetch : getLastNews sanitizeHTML feed 10 = .ok lastNews)
    (hnone : selectNews now lastNews [] = .ok []) :
    (notifyDiscord b []).sends = [] ∧
      (notifyDiscord b []).sessions = (if b.newOk then 1 else 0) ∧
      cronRSSNews b sanitizeHTML feed now = { trace := [], outcome := .returned } ∧
      (cronRSSNews b sanitizeHTML feed now).sessions = 0 ∧
      (cronRSSNews b sanitizeHTML feed now).sends = [] := by
  have hcron : cronRSSNews b sanitizeHTML feed now = { trace := [], outcome := .returned } := by
    simp [cronRSSNews, hfetch, hnone]
  refine ⟨?_, ?_, hcron, by rw [hcron]; rfl, by rw [hcron]; rfl⟩
  · cases hn : b.newOk <;> cases ho : b.openOk <;>
      simp [notifyDiscord, reverseNews_eq_reverse, newDiscordSession, hn, ho, sendLoop,
        Run.sends]
  · cases hn : b.newOk <;> cases ho : b.openOk <;>
      simp [notifyDiscord, reverseNews_eq_reverse, newDiscordSession, hn, ho, sendLoop,
        Run.sessions]

/-- A cycle over ten items that are all older than 60 seconds makes no backend call. -/
theorem empty_batch_witness :
    cronRSSNews okBackend id (some oldFeed) 1000000000000 =
      { trace := [], outcome := .returned } :=
  (empty_batch okBackend id (some oldFeed) 1000000000000
    (oldFeed.Items.map (newFeedItem id oldFeed))
    (getLastNews_eq_take id oldFeed 10 (by decide) (by decide) (by decide))
    rfl).2.2.1

/-! ## Scheduled cycle -/

/-- **C1.** For fetched items whose publish timestamps are all present and every
instant `now`, the list the scheduled cycle selects for delivery is the input list
filtered by `now - publishedAt < 60 s`, in input order: an item is selected iff it
satisfies the predicate, every item with `now - publishedAt ≥ 60 s` is excluded, and
the selection is a sublist of the input (relative order kept).  `cronRSSNews` hands
exactly this list to `notifyDiscord` when it is not empty, and makes no backend call
when it is empty. -/
theorem selectNews_spec (now : Int) (items : List feedItem)
    (hall : ∀ item ∈ items, item.PublishedParsed ≠ none) :
    ∃ selected : List feedItem,
      selectNews now items [] = .ok selected ∧
      selected = items.filter (fresh now) ∧
      (∀ item, item ∈ selected ↔ item ∈ items ∧ fresh now item = true) ∧
      (∀ item ∈ items, ∀ published, item.PublishedParsed = some published →
        60 * 1000000000 ≤ now - published → item ∉ selected) ∧
      selected.Sublist items ∧
      (∀ (b : Backend) (sanitizeHTML : String → String) (feed : Option Feed),
        getLastNews sanitizeHTML feed 10 = .ok items →
          cronRSSNews b sanitizeHTML feed now =
            if selected.length > 0 then notifyDiscord b selected
            else { trace := [], outcome := .returned }) := by
  have hsel : selectNews now items [] = .ok (items.filter (fresh now)) := by
    rw [selectNews_eq_filter now items [] hall, List.nil_append]
  refine ⟨items.filter (fresh now), hsel, rfl, ?_, ?_, List.filter_sublist _, ?_⟩
  · intro item
    exact List.mem_filter
  · intro item _ published hp hold hsel
    have hf := (List.mem_filter.1 hsel).2
    unfold fresh at hf
    rw [hp] at hf
    exact absurd (of_decide_eq_true hf) (not_lt.2 hold)
  · intro b sanitizeHTML feed hfetch
    unfold cronRSSNews
    rw [hfetch]
    simp only [hsel]

/-- The scenario of a feed of ten items of which two are within 60 seconds: exactly
those two are selected, in feed order, and the cycle delivers exactly those two,
oldest first. -/
theorem selectNews_spec_witness :
    selectNews 1000000000000 tenNews [] =
        .ok [sampleNews "n0" (some 970000000000), sampleNews "n1" (some 941000000000)] ∧
      cronRSSNews okBackend id (some tenFeed) 1000000000000 =
        notifyDiscord okBackend
          [sampleNews "n0" (some 970000000000), sampleNews "n1" (some 941000000000)] ∧
      (cronRSSNews okBackend id (some tenFeed) 1000000000000).sends =
        [formatRSSDiscordMessage (sampleNews "n1" (some 941000000000)),
         formatRSSDiscordMessage (sampleNews "n0" (some 970000000000))] := by
  obtain ⟨selected, hsel, hfilter, _, _, _, hcycle⟩ :=
    selectNews_spec 1000000000000 tenNews (by decide)
  have hlist : selected =
      [sampleNews "n0" (some 970000000000), sampleNews "n1" (some 941000000000)] := by
    rw [hfilter]; decide
  have hfetch : getLastNews id (some tenFeed) 10 = .ok tenNews :=
    getLastNews_eq_take id tenFeed 10 (by decide) (by decide) (by decide)
  have hrun := hcycle okBackend id (some tenFeed) hfetch
  rw [hlist] at hsel hrun
  have hrun2 : cronRSSNews okBackend id (some tenFeed) 1000000000000 =
      notifyDiscord okBackend
        [sampleNews "n0" (some 970000000000), sampleNews "n1" (some 941000000000)] := by
    rw [hrun]; rfl
  refine ⟨hsel, hrun2, ?_⟩
  rw [hrun2, notifyDiscord_trace_ok okBackend _ rfl rfl (fun _ _ _ => rfl)]
  rfl

end Ryze
